import Mathlib

/-!
Verification of the prediction-ensembling subsystem of the cervix-classif
repository: a shallow embedding of `src/average_submissions.py` (the weighted
Key-Aligned Combiner), `src/stacking.py` (the Stacking Meta-Learner command)
and `src/bounding_box.py` (image-dictionary construction and the `predict`
entry point), together with theorems settling the specification claims.

Floating-point probabilities and weights are embedded as exact rationals
(`ℚ`); numpy arrays as nested lists.  `OrderedDict`s are embedded as
association lists whose key sequence is the Python insertion order.
-/

/-- One weighted prediction source as read by `average` in
`src/average_submissions.py` (lines 21-35): per line the item name
(`split[0]`), the probability row (`split[1:]`, floats embedded as `ℚ`),
and the weight taken from `W_SUBMISSIONS`. -/
structure Source where
  names : List String
  probs : List (List ℚ)
  weight : ℚ

/-- Number of rows of the first source: the row count `np.array(probs)`
(line 37) must find in every source to build a numeric 3-d array. -/
def rowCount : List Source → ℕ
  | [] => 0
  | s :: _ => s.probs.length

/-- Number of columns of the first row of the first source. -/
def colCount : List Source → ℕ
  | [] => 0
  | s :: _ => (s.probs.headD []).length

/-- `np.array(probs)` at line 37 of `src/average_submissions.py` yields a
numeric 3-d array exactly when every source has the same number of rows and
every row (across all sources) the same length.  Nothing else is checked:
in particular the item names are never compared. -/
def shapesOK (ss : List Source) : Bool :=
  ss.all fun t =>
    t.probs.length == rowCount ss &&
    t.probs.all fun row => row.length == colCount ss

/-- Elementwise sum of two same-shaped matrices. -/
def matAdd (a b : List (List ℚ)) : List (List ℚ) :=
  List.zipWith (fun ra rb => List.zipWith (· + ·) ra rb) a b

/-- `np.sum(_, axis=0)` (line 41) on a stack of same-shaped matrices. -/
def sumAxis0 : List (List (List ℚ)) → List (List ℚ)
  | [] => []
  | [m] => m
  | m :: m2 :: ms => matAdd m (sumAxis0 (m2 :: ms))

/-- `probs * weights[:, np.newaxis, np.newaxis]` (line 40) scales each
source matrix by its weight, elementwise, in the operand order of the code. -/
def scaleMat (m : List (List ℚ)) (w : ℚ) : List (List ℚ) :=
  m.map fun row => row.map fun x => x * w

/-- Line 28 of `src/average_submissions.py` rebinds `names = []` inside the
loop over sources, so after the loop `names` holds the last source's names. -/
def lastNames : List Source → List String
  | [] => []
  | [s] => s.names
  | _ :: s2 :: ss => lastNames (s2 :: ss)

/-- `np.sum(weights)` (line 41). -/
def totalWeight (ss : List Source) : ℚ :=
  (ss.map Source.weight).sum

/-- The `average` operation of `src/average_submissions.py` (lines 18-47),
abstracted over the file contents it reads: scale each source's matrix by its
weight, sum across sources, divide by the total weight, and pair the result
with the (last source's) names handed to `create_submission_file`.  The
`none` branch models the numpy failure when the per-source arrays cannot be
stacked into one numeric 3-d array.  No key comparison and no weight
validation appear anywhere in the source. -/
def average (ss : List Source) : Option (List String × List (List ℚ)) :=
  if shapesOK ss then
    some (lastNames ss,
      (sumAxis0 (ss.map fun s => scaleMat s.probs s.weight)).map
        fun row => row.map fun x => x / totalWeight ss)
  else
    none

/-- Entry of a matrix at row `r`, column `c` (0 outside the matrix). -/
def entry (m : List (List ℚ)) (r c : ℕ) : ℚ :=
  (m.getD r []).getD c 0

/-- The names component of a successful `average` run. -/
def avgNames (ss : List Source) : List String :=
  ((average ss).getD ([], [])).1

/-- The matrix component of a successful `average` run. -/
def avgMatrix (ss : List Source) : List (List ℚ) :=
  ((average ss).getD ([], [])).2

/-- A matrix with exactly `R` rows, each of length `C` (index formulation). -/
def MatShape (m : List (List ℚ)) (R C : ℕ) : Prop :=
  m.length = R ∧ ∀ r, r < R → (m.getD r []).length = C

section Helpers

variable {α : Type}

lemma getD_of_len_le {l : List α} {n : ℕ} (d : α) (h : l.length ≤ n) :
    l.getD n d = d := by
  induction l generalizing n with
  | nil => simp [List.getD_nil]
  | cons a t ih =>
    cases n with
    | zero => simp at h
    | succ n => simpa [List.getD_cons_succ] using ih (by simpa using h)

lemma getD_map_fun {β : Type} (l : List α) (f : α → β) (n : ℕ) (d : α) :
    (l.map f).getD n (f d) = f (l.getD n d) := by
  induction l generalizing n with
  | nil => simp [List.getD_nil]
  | cons a t ih =>
    cases n with
    | zero => simp [List.getD_cons_zero]
    | succ n => simp only [List.map_cons, List.getD_cons_succ]; exact ih n

lemma getD_zipWith {β : Type} (f : α → α → β) (d : α) (e : β)
    (hd : f d d = e) (xs ys : List α) (h : xs.length = ys.length) (n : ℕ) :
    (List.zipWith f xs ys).getD n e = f (xs.getD n d) (ys.getD n d) := by
  induction xs generalizing ys n with
  | nil =>
    cases ys with
    | nil => simp [List.getD_nil, hd]
    | cons y ys => simp at h
  | cons x xs ih =>
    cases ys with
    | nil => simp at h
    | cons y ys =>
      cases n with
      | zero => simp [List.getD_cons_zero]
      | succ n => simpa [List.getD_cons_succ] using ih ys (by simpa using h) n

lemma sum_map_mul_right (l : List ℚ) (w : ℚ) :
    (l.map fun x => x * w).sum = l.sum * w := by
  induction l with
  | nil => simp
  | cons a t ih => simp [ih, add_mul]

lemma sum_map_div_right (l : List ℚ) (w : ℚ) :
    (l.map fun x => x / w).sum = l.sum / w := by
  induction l with
  | nil => simp
  | cons a t ih => simp [ih, add_div]

lemma sum_zipWith_add (xs ys : List ℚ) (h : xs.length = ys.length) :
    (List.zipWith (· + ·) xs ys).sum = xs.sum + ys.sum := by
  induction xs generalizing ys with
  | nil =>
    cases ys with
    | nil => simp
    | cons y ys => simp at h
  | cons x xs ih =>
    cases ys with
    | nil => simp at h
    | cons y ys =>
      simp only [List.zipWith_cons_cons, List.sum_cons, ih ys (by simpa using h)]
      ring

end Helpers

lemma matShape_rowLen_eq {a b : List (List ℚ)} {R C : ℕ}
    (ha : MatShape a R C) (hb : MatShape b R C) (r : ℕ) :
    (a.getD r []).length = (b.getD r []).length := by
  by_cases hr : r < R
  · rw [ha.2 r hr, hb.2 r hr]
  · have hha : a.length ≤ r := by rw [ha.1]; exact not_lt.mp hr
    have hhb : b.length ≤ r := by rw [hb.1]; exact not_lt.mp hr
    rw [getD_of_len_le [] hha, getD_of_len_le [] hhb]

lemma matShape_matAdd {a b : List (List ℚ)} {R C : ℕ}
    (ha : MatShape a R C) (hb : MatShape b R C) :
    MatShape (matAdd a b) R C := by
  have hlen : a.length = b.length := ha.1.trans hb.1.symm
  constructor
  · simp [matAdd, List.length_zipWith, ha.1, hb.1]
  · intro r hr
    have := getD_zipWith (fun ra rb => List.zipWith (· + ·) ra rb) [] []
      (by simp) a b hlen r
    rw [matAdd, this, List.length_zipWith, ha.2 r hr, hb.2 r hr, Nat.min_self]

lemma getD_matAdd {a b : List (List ℚ)} (h : a.length = b.length) (r : ℕ) :
    (matAdd a b).getD r [] = List.zipWith (· + ·) (a.getD r []) (b.getD r []) := by
  have := getD_zipWith (fun ra rb => List.zipWith (· + ·) ra rb) [] []
    (by simp) a b h r
  rw [matAdd, this]

lemma entry_matAdd {a b : List (List ℚ)} {R C : ℕ}
    (ha : MatShape a R C) (hb : MatShape b R C) (r c : ℕ) :
    entry (matAdd a b) r c = entry a r c + entry b r c := by
  unfold entry
  rw [getD_matAdd (ha.1.trans hb.1.symm) r]
  exact getD_zipWith (· + ·) 0 0 (by simp) _ _ (matShape_rowLen_eq ha hb r) c

lemma rowSum_matAdd {a b : List (List ℚ)} {R C : ℕ}
    (ha : MatShape a R C) (hb : MatShape b R C) (r : ℕ) :
    ((matAdd a b).getD r []).sum = (a.getD r []).sum + (b.getD r []).sum := by
  rw [getD_matAdd (ha.1.trans hb.1.symm) r]
  exact sum_zipWith_add _ _ (matShape_rowLen_eq ha hb r)

lemma matShape_scaleMat {m : List (List ℚ)} {R C : ℕ} (h : MatShape m R C)
    (w : ℚ) : MatShape (scaleMat m w) R C := by
  constructor
  · simp [scaleMat, h.1]
  · intro r hr
    have := getD_map_fun m (fun row => row.map fun x => x * w) r []
    simp only [List.map_nil] at this
    rw [scaleMat, this, List.length_map, h.2 r hr]

lemma entry_scaleMat (m : List (List ℚ)) (w : ℚ) (r c : ℕ) :
    entry (scaleMat m w) r c = entry m r c * w := by
  unfold entry scaleMat
  have h1 := getD_map_fun m (fun row => row.map fun x => x * w) r []
  simp only [List.map_nil] at h1
  rw [h1]
  have h2 := getD_map_fun (m.getD r []) (fun x => x * w) c 0
  simp only [zero_mul] at h2
  rw [h2]

lemma rowSum_scaleMat (m : List (List ℚ)) (w : ℚ) (r : ℕ) :
    ((scaleMat m w).getD r []).sum = (m.getD r []).sum * w := by
  have h1 := getD_map_fun m (fun row => row.map fun x => x * w) r []
  simp only [List.map_nil] at h1
  rw [scaleMat, h1, sum_map_mul_right]

lemma sumAxis0_cons₂ (m m2 : List (List ℚ)) (ms : List (List (List ℚ))) :
    sumAxis0 (m :: m2 :: ms) = matAdd m (sumAxis0 (m2 :: ms)) := rfl

lemma matShape_sumAxis0 {ms : List (List (List ℚ))} {R C : ℕ}
    (hne : ms ≠ []) (h : ∀ m ∈ ms, MatShape m R C) :
    MatShape (sumAxis0 ms) R C := by
  induction ms with
  | nil => exact absurd rfl hne
  | cons m t ih =>
    cases t with
    | nil => exact h m (List.mem_cons_self _ _)
    | cons m2 t2 =>
      rw [sumAxis0_cons₂]
      exact matShape_matAdd (h m (List.mem_cons_self _ _))
        (ih (List.cons_ne_nil _ _) fun x hx => h x (List.mem_cons_of_mem _ hx))

lemma entry_sumAxis0 {ms : List (List (List ℚ))} {R C : ℕ}
    (h : ∀ m ∈ ms, MatShape m R C) (r c : ℕ) :
    entry (sumAxis0 ms) r c = (ms.map fun m => entry m r c).sum := by
  induction ms with
  | nil => simp [sumAxis0, entry, List.getD_nil]
  | cons m t ih =>
    cases t with
    | nil => simp [sumAxis0]
    | cons m2 t2 =>
      rw [sumAxis0_cons₂, List.map_cons, List.sum_cons,
        entry_matAdd (h m (List.mem_cons_self _ _))
          (matShape_sumAxis0 (List.cons_ne_nil _ _)
            fun x hx => h x (List.mem_cons_of_mem _ hx)),
        ih fun x hx => h x (List.mem_cons_of_mem _ hx)]

lemma rowSum_sumAxis0 {ms : List (List (List ℚ))} {R C : ℕ}
    (h : ∀ m ∈ ms, MatShape m R C) (r : ℕ) :
    ((sumAxis0 ms).getD r []).sum = (ms.map fun m => (m.getD r []).sum).sum := by
  induction ms with
  | nil => simp [sumAxis0, List.getD_nil]
  | cons m t ih =>
    cases t with
    | nil => simp [sumAxis0]
    | cons m2 t2 =>
      rw [sumAxis0_cons₂, List.map_cons, List.sum_cons,
        rowSum_matAdd (h m (List.mem_cons_self _ _))
          (matShape_sumAxis0 (List.cons_ne_nil _ _)
            fun x hx => h x (List.mem_cons_of_mem _ hx)),
        ih fun x hx => h x (List.mem_cons_of_mem _ hx)]

lemma getD_mem_of_lt {α : Type} {l : List α} {n : ℕ} (d : α)
    (h : n < l.length) : l.getD n d ∈ l := by
  induction l generalizing n with
  | nil => simp at h
  | cons a t ih =>
    cases n with
    | zero => simp [List.getD_cons_zero]
    | succ n =>
      simp only [List.getD_cons_succ]
      exact List.mem_cons_of_mem _ (ih (by simpa using h))

lemma shapesOK_matShape {ss : List Source} (h : shapesOK ss = true) :
    ∀ s ∈ ss, MatShape s.probs (rowCount ss) (colCount ss) := by
  intro s hs
  rw [shapesOK, List.all_eq_true] at h
  obtain ⟨h1, h2⟩ := by simpa using h s hs
  constructor
  · exact h1
  · intro r hr
    rw [← h1] at hr
    exact h2 _ (getD_mem_of_lt [] hr)

lemma average_eq {ss : List Source} (h : shapesOK ss = true) :
    average ss = some (lastNames ss,
      (sumAxis0 (ss.map fun s => scaleMat s.probs s.weight)).map
        fun row => row.map fun x => x / totalWeight ss) := by
  rw [average, if_pos h]

lemma entry_mapDiv (m : List (List ℚ)) (w : ℚ) (r c : ℕ) :
    entry (m.map fun row => row.map fun x => x / w) r c = entry m r c / w := by
  unfold entry
  have h1 := getD_map_fun m (fun row => row.map fun x => x / w) r []
  simp only [List.map_nil] at h1
  rw [h1]
  have h2 := getD_map_fun (m.getD r []) (fun x => x / w) c 0
  simp only [zero_div] at h2
  rw [h2]

lemma rowSum_mapDiv (m : List (List ℚ)) (w : ℚ) (r : ℕ) :
    ((m.map fun row => row.map fun x => x / w).getD r []).sum
      = (m.getD r []).sum / w := by
  have h1 := getD_map_fun m (fun row => row.map fun x => x / w) r []
  simp only [List.map_nil] at h1
  rw [h1, sum_map_div_right]

lemma avgMatrix_eq {ss : List Source} (h : shapesOK ss = true) :
    avgMatrix ss = (sumAxis0 (ss.map fun s => scaleMat s.probs s.weight)).map
      fun row => row.map fun x => x / totalWeight ss := by
  rw [avgMatrix, average_eq h]
  rfl

/-- Entries of the combined matrix are given by the weighted-sum formula of
lines 40-41 of `src/average_submissions.py`, for any weights whatsoever. -/
lemma entry_avgMatrix {ss : List Source} (h : shapesOK ss = true) (r c : ℕ) :
    entry (avgMatrix ss) r c
      = (ss.map fun s => s.weight * entry s.probs r c).sum / totalWeight ss := by
  rw [avgMatrix_eq h, entry_mapDiv,
    entry_sumAxis0 (R := rowCount ss) (C := colCount ss)
      (by
        intro m hm
        obtain ⟨s, hs, rfl⟩ := List.mem_map.mp hm
        exact matShape_scaleMat (shapesOK_matShape h s hs) _),
    List.map_map]
  congr 1
  refine congrArg List.sum (List.map_congr_left fun s _ => ?_)
  simp only [Function.comp_apply, entry_scaleMat, mul_comm]

lemma rowSum_avgMatrix {ss : List Source} (h : shapesOK ss = true) (r : ℕ) :
    ((avgMatrix ss).getD r []).sum
      = (ss.map fun s => s.weight * (s.probs.getD r []).sum).sum
          / totalWeight ss := by
  rw [avgMatrix_eq h, rowSum_mapDiv,
    rowSum_sumAxis0 (R := rowCount ss) (C := colCount ss)
      (by
        intro m hm
        obtain ⟨s, hs, rfl⟩ := List.mem_map.mp hm
        exact matShape_scaleMat (shapesOK_matShape h s hs) _),
    List.map_map]
  congr 1
  refine congrArg List.sum (List.map_congr_left fun s _ => ?_)
  simp only [Function.comp_apply, rowSum_scaleMat, mul_comm]

/-- C1 (counterexample): two same-shaped sources whose name sequences differ
in every position are nevertheless combined by `average` into a matrix; no
`KeyMismatchError` (nor any other key check) exists in the code. -/
theorem C1_counterexample :
    (Source.mk ["a", "b"] [[1, 0], [0, 1]] 1).names
        ≠ (Source.mk ["b", "a"] [[0, 1], [1, 0]] 1).names
    ∧ (average [Source.mk ["a", "b"] [[1, 0], [0, 1]] 1,
        Source.mk ["b", "a"] [[0, 1], [1, 0]] 1]).isSome = true := by
  refine ⟨?_, rfl⟩
  decide

/-- C1 (amended): `average` performs no key comparison at all.  Whenever the
per-source matrices can be stacked (`shapesOK`), the combination succeeds
regardless of the name sequences, and the names written out are simply the
last source's names (line 28 resets `names` on every loop iteration). -/
theorem C1_no_key_check (ss : List Source) (h : shapesOK ss = true) :
    (average ss).isSome = true ∧ avgNames ss = lastNames ss := by
  constructor
  · rw [average_eq h]; rfl
  · rw [avgNames, average_eq h]; rfl

/-- Witness for C1 (amended) at two sources with disagreeing names. -/
theorem C1_no_key_check_witness :
    (average [Source.mk ["a", "b"] [[1, 0], [0, 1]] 1,
        Source.mk ["b", "c"] [[0, 1], [1, 0]] 1]).isSome = true
    ∧ avgNames [Source.mk ["a", "b"] [[1, 0], [0, 1]] 1,
        Source.mk ["b", "c"] [[0, 1], [1, 0]] 1]
      = lastNames [Source.mk ["a", "b"] [[1, 0], [0, 1]] 1,
        Source.mk ["b", "c"] [[0, 1], [1, 0]] 1] :=
  C1_no_key_check _ rfl

/-- C2: for sources satisfying the combiner's stacking precondition and a
positive total weight, the combined entry at row `r`, column `c` is
`sum_i(weight_i * prob_i[r][c]) / sum_i(weight_i)`, exactly as computed by
lines 40-41 of `src/average_submissions.py`. -/
theorem C2_weighted_average_formula (ss : List Source)
    (h : shapesOK ss = true) (_hW : 0 < totalWeight ss) (r c : ℕ)
    (_hr : r < rowCount ss) (_hc : c < colCount ss) :
    average ss = some (avgNames ss, avgMatrix ss) ∧
    entry (avgMatrix ss) r c
      = (ss.map fun s => s.weight * entry s.probs r c).sum / totalWeight ss := by
  refine ⟨?_, entry_avgMatrix h r c⟩
  rw [avgNames, avgMatrix, average_eq h]
  rfl

/-- Witness for C2 at a concrete two-source ensemble. -/
theorem C2_weighted_average_formula_witness :
    average [Source.mk ["a"] [[1, 0]] 1, Source.mk ["a"] [[0, 1]] 1]
        = some (avgNames [Source.mk ["a"] [[1, 0]] 1, Source.mk ["a"] [[0, 1]] 1],
            avgMatrix [Source.mk ["a"] [[1, 0]] 1, Source.mk ["a"] [[0, 1]] 1]) ∧
    entry (avgMatrix [Source.mk ["a"] [[1, 0]] 1, Source.mk ["a"] [[0, 1]] 1]) 0 0
      = ([Source.mk ["a"] [[1, 0]] 1, Source.mk ["a"] [[0, 1]] 1].map
          fun s => s.weight * entry s.probs 0 0).sum
        / totalWeight [Source.mk ["a"] [[1, 0]] 1, Source.mk ["a"] [[0, 1]] 1] :=
  C2_weighted_average_formula _ (by rfl)
    (by simp [totalWeight]) 0 0 (by decide) (by decide)

/-- C3 (counterexample): a source carrying a negative weight is accepted and
combined by `average`; no `InvalidWeightError` (nor any weight check at all)
exists in the code. -/
theorem C3_counterexample :
    (Source.mk ["a"] [[1, 0]] (-1)).weight < 0
    ∧ (average [Source.mk ["a"] [[1, 0]] (-1)]).isSome = true := by
  refine ⟨?_, rfl⟩
  decide

/-- C3 (amended): `average` validates nothing about the weights.  For any
weight configuration whatsoever (negative weights and non-positive totals
included) it still produces the combined matrix given by the weighted-sum
formula; a zero total weight flows into the division (NaN in the
floating-point code, the conventional 0 in this exact embedding) instead of
raising an error. -/
theorem C3_no_weight_validation (ss : List Source)
    (h : shapesOK ss = true) (r c : ℕ) :
    (average ss).isSome = true ∧
    entry (avgMatrix ss) r c
      = (ss.map fun s => s.weight * entry s.probs r c).sum / totalWeight ss := by
  refine ⟨?_, entry_avgMatrix h r c⟩
  rw [average_eq h]
  rfl

/-- Witness for C3 (amended) at a source with a negative weight. -/
theorem C3_no_weight_validation_witness :
    (average [Source.mk ["a"] [[1, 0]] (-1)]).isSome = true ∧
    entry (avgMatrix [Source.mk ["a"] [[1, 0]] (-1)]) 0 0
      = ([Source.mk ["a"] [[1, 0]] (-1)].map
          fun s => s.weight * entry s.probs 0 0).sum
        / totalWeight [Source.mk ["a"] [[1, 0]] (-1)] :=
  C3_no_weight_validation _ (by rfl) 0 0

/-- C4: when every source row is a probability distribution (sums to 1) and
the total weight is positive, every row of the combined matrix sums to
exactly 1 in the rational embedding (hence within any tolerance): the
weighted mean of distributions is a distribution, with no per-row
renormalization anywhere in lines 40-41. -/
theorem C4_row_sum_invariant (ss : List Source)
    (h : shapesOK ss = true) (hW : 0 < totalWeight ss)
    (hrows : ∀ s ∈ ss, ∀ row ∈ s.probs, row.sum = 1)
    (r : ℕ) (hr : r < rowCount ss) :
    average ss = some (avgNames ss, avgMatrix ss) ∧
    ((avgMatrix ss).getD r []).sum = 1 := by
  constructor
  · rw [avgNames, avgMatrix, average_eq h]
    rfl
  · rw [rowSum_avgMatrix h r]
    have hmap : (ss.map fun s => s.weight * (s.probs.getD r []).sum)
        = ss.map Source.weight := by
      refine List.map_congr_left fun s hs => ?_
      have hlen : r < s.probs.length := by
        rw [(shapesOK_matShape h s hs).1]; exact hr
      rw [hrows s hs _ (getD_mem_of_lt [] hlen), mul_one]
    rw [hmap, ← totalWeight, div_self (ne_of_gt hW)]

/-- Witness for C4 at a concrete two-source ensemble of distributions. -/
theorem C4_row_sum_invariant_witness :
    average [Source.mk ["a"] [[1, 0]] 1, Source.mk ["a"] [[0, 1]] 1]
        = some (avgNames [Source.mk ["a"] [[1, 0]] 1, Source.mk ["a"] [[0, 1]] 1],
            avgMatrix [Source.mk ["a"] [[1, 0]] 1, Source.mk ["a"] [[0, 1]] 1]) ∧
    ((avgMatrix [Source.mk ["a"] [[1, 0]] 1,
        Source.mk ["a"] [[0, 1]] 1]).getD 0 []).sum = 1 :=
  C4_row_sum_invariant _ (by rfl) (by simp [totalWeight])
    (by simp) 0 (by decide)

lemma row_mul_div_cancel {w : ℚ} (hw : w ≠ 0) (l : List ℚ) :
    ((l.map fun x => x * w).map fun x => x / w) = l := by
  induction l with
  | nil => simp
  | cons a t ih => simp [ih, mul_div_cancel_right₀ a hw]

lemma scaleMat_div_cancel {w : ℚ} (hw : w ≠ 0) (m : List (List ℚ)) :
    ((scaleMat m w).map fun row => row.map fun x => x / w) = m := by
  induction m with
  | nil => simp [scaleMat]
  | cons row t ih =>
    simp only [scaleMat, List.map_cons] at ih ⊢
    rw [row_mul_div_cancel hw, ih]

/-- C6: combining a single source with a positive weight returns that
source's matrix unchanged (`w * p / w = p`), together with its names. -/
theorem C6_single_source_identity (s : Source)
    (h : shapesOK [s] = true) (hw : 0 < s.weight) :
    average [s] = some (s.names, s.probs) := by
  rw [average_eq h]
  have hT : totalWeight [s] = s.weight := by
    simp [totalWeight]
  simp only [List.map_cons, List.map_nil, hT]
  have hsum : sumAxis0 [scaleMat s.probs s.weight] = scaleMat s.probs s.weight := rfl
  rw [hsum, scaleMat_div_cancel (ne_of_gt hw)]
  rfl

/-- Witness for C6 at a concrete single source. -/
theorem C6_single_source_identity_witness :
    average [Source.mk ["a"] [[1, 0]] 1] = some (["a"], [[1, 0]]) :=
  C6_single_source_identity _ rfl zero_lt_one

/-- Modelled from the spec: the probability link of the Stacking
Meta-Learner's apply step.  Line 92 of `src/stacking.py` delegates to
`LogisticRegression.predict_proba`, whose body lives outside this repository;
per the spec it passes the combiner's scores through a positive link function
and then divides each row by its row sum so that rows sum to 1.  The division
is total here (as in numpy, where a zero row sum yields NaN entries with no
exception); `src/stacking.py` itself wraps the call in no error handling and
raises nothing. -/
def predictProba (scores : List (List ℚ)) : List (List ℚ) :=
  scores.map fun row => row.map fun x => x / row.sum

/-- C5 (counterexample): on a row that cannot be normalized (zero row sum,
the exact-arithmetic stand-in for a non-finite row) the apply step still
returns a matrix — a degenerate row instead of an `InvalidProbabilityError`;
no such error exists anywhere in `src/stacking.py`. -/
theorem C5_counterexample :
    predictProba [[0, 0]] = [[0, 0]]
    ∧ ((predictProba [[0, 0]]).getD 0 []).sum ≠ 1 := by
  constructor
  · simp [predictProba]
  · simp [predictProba]

/-- C5 (amended): whenever every score row has a positive sum, each row of
the apply step's output sums to exactly 1; when a row cannot be normalized
the operation does not fail but returns a degenerate row (see the
counterexample). -/
theorem C5_rows_sum_one (scores : List (List ℚ))
    (h : ∀ row ∈ scores, 0 < row.sum)
    (row : List ℚ) (hrow : row ∈ predictProba scores) :
    row.sum = 1 := by
  obtain ⟨r0, hr0, rfl⟩ := List.mem_map.mp hrow
  rw [sum_map_div_right, div_self (ne_of_gt (h r0 hr0))]

/-- Witness for C5 (amended) at a concrete one-row score matrix. -/
theorem C5_rows_sum_one_witness :
    ((predictProba [[(1 : ℚ)]]).getD 0 []).sum = 1 :=
  C5_rows_sum_one [[(1 : ℚ)]] (by simp) _ (by simp [predictProba])

/-- One base model of the stacking ensemble (`MODELS` in `src/stacking.py`):
its file name and the prediction matrices `_make_predictions` returns for the
validation and the test directory. -/
structure BaseModel where
  id : String
  predsVal : List (List ℚ)
  predsTe : List (List ℚ)

/-- `np.hstack` (lines 68/70 of `src/stacking.py`): rowwise concatenation of
two matrices with the same number of rows. -/
def hstack (a b : List (List ℚ)) : List (List ℚ) :=
  List.zipWith (· ++ ·) a b

/-- `np.empty((n, 0))` (lines 46/48): `n` rows of zero columns. -/
def emptyFeatures (n : ℕ) : List (List ℚ) :=
  List.replicate n []

/-- The validation feature matrix `preds_val` built by the loop over
`MODELS.items()` (lines 50-70): hstack each model's validation predictions
in iteration order. -/
def stackedVal (n : ℕ) (models : List BaseModel) : List (List ℚ) :=
  models.foldl (fun acc m => hstack acc m.predsVal) (emptyFeatures n)

/-- The test feature matrix `preds_te` built by the same loop, in the same
iteration order over the same `MODELS`. -/
def stackedTe (n : ℕ) (models : List BaseModel) : List (List ℚ) :=
  models.foldl (fun acc m => hstack acc m.predsTe) (emptyFeatures n)

lemma getD_replicate_nil (n r : ℕ) :
    (List.replicate n ([] : List ℚ)).getD r [] = [] := by
  induction n generalizing r with
  | zero => simp [List.getD_nil]
  | succ n ih =>
    cases r with
    | zero => simp [List.replicate, List.getD_cons_zero]
    | succ r => simp [List.replicate, List.getD_cons_succ, ih]

lemma length_hstack (a b : List (List ℚ)) :
    (hstack a b).length = min a.length b.length := by
  simp [hstack, List.length_zipWith]

lemma getD_hstack {a b : List (List ℚ)} (h : a.length = b.length) (r : ℕ) :
    (hstack a b).getD r [] = a.getD r [] ++ b.getD r [] := by
  have := getD_zipWith (· ++ ·) ([] : List ℚ) [] (by simp) a b h r
  rw [hstack, this]

lemma stacked_foldl_row (f : BaseModel → List (List ℚ)) (n : ℕ)
    (models : List BaseModel) (hf : ∀ m ∈ models, (f m).length = n)
    (acc : List (List ℚ)) (hacc : acc.length = n) (r : ℕ) :
    (models.foldl (fun a m => hstack a (f m)) acc).getD r []
      = acc.getD r [] ++ (models.map fun m => (f m).getD r []).flatten := by
  induction models generalizing acc with
  | nil => simp
  | cons m t ih =>
    rw [List.foldl_cons,
      ih (fun x hx => hf x (List.mem_cons_of_mem _ hx)) _
        (by rw [length_hstack, hacc, hf m (List.mem_cons_self _ _), Nat.min_self]),
      getD_hstack (by rw [hacc, hf m (List.mem_cons_self _ _)]),
      List.map_cons, List.flatten_cons, List.append_assoc]

/-- C7: the validation feature matrix and the test feature matrix are both
built by horizontal concatenation of the base models' prediction blocks in
the one shared `MODELS.items()` iteration order, so row `r` of each is the
ordered concatenation of the models' `r`-th prediction rows — the same
deterministic column layout on both sides (built in a single loop, the two
matrices cannot get out of step; no reuse with a different order exists in
the code). -/
theorem C7_same_column_layout (models : List BaseModel) (nv nt : ℕ)
    (hv : ∀ m ∈ models, m.predsVal.length = nv)
    (ht : ∀ m ∈ models, m.predsTe.length = nt) (r : ℕ) :
    (stackedVal nv models).getD r []
        = (models.map fun m => m.predsVal.getD r []).flatten
    ∧ (stackedTe nt models).getD r []
        = (models.map fun m => m.predsTe.getD r []).flatten := by
  constructor
  · rw [stackedVal,
      stacked_foldl_row BaseModel.predsVal nv models hv _ (by simp [emptyFeatures]),
      emptyFeatures, getD_replicate_nil, List.nil_append]
  · rw [stackedTe,
      stacked_foldl_row BaseModel.predsTe nt models ht _ (by simp [emptyFeatures]),
      emptyFeatures, getD_replicate_nil, List.nil_append]

/-- Witness for C7 at a concrete two-model ensemble. -/
theorem C7_same_column_layout_witness :
    (stackedVal 1 [BaseModel.mk "m1" [[1, 0]] [[0, 1], [1, 0]],
        BaseModel.mk "m2" [[0, 1]] [[1, 0], [0, 1]]]).getD 0 []
        = ([BaseModel.mk "m1" [[1, 0]] [[0, 1], [1, 0]],
            BaseModel.mk "m2" [[0, 1]] [[1, 0], [0, 1]]].map
              fun m => m.predsVal.getD 0 []).flatten
    ∧ (stackedTe 2 [BaseModel.mk "m1" [[1, 0]] [[0, 1], [1, 0]],
        BaseModel.mk "m2" [[0, 1]] [[1, 0], [0, 1]]]).getD 0 []
        = ([BaseModel.mk "m1" [[1, 0]] [[0, 1], [1, 0]],
            BaseModel.mk "m2" [[0, 1]] [[1, 0], [0, 1]]].map
              fun m => m.predsTe.getD 0 []).flatten :=
  C7_same_column_layout _ 1 2 (by decide) (by decide) 0

/-- The externally observable actions of `train` in `src/stacking.py`
(lines 74-100), in program order: printing the cross-validation scores,
writing a submission file via `create_submission_file`, and printing the
fitted coefficients.  `σ` is the (opaque) type of the score summary returned
by `cross_val_scores`. -/
inductive Effect (σ : Type) where
  | printScores (s : σ)
  | writeSubmission (names : List String) (preds : List (List ℚ)) (path : String)
  | printCoef (c : List (List ℚ))

/-- Whether an effect is the writing of a submission file. -/
def isWriteSubmission {σ : Type} : Effect σ → Bool
  | .writeSubmission _ _ _ => true
  | _ => false

/-- A fitted `LogisticRegression` (external library state, abstracted): its
decision scores on a feature matrix and its `coef_` attribute. -/
structure FittedLR where
  scores : List (List ℚ) → List (List ℚ)
  coef : List (List ℚ)

/-- The branch of `train` (`src/stacking.py` lines 74-100) after the feature
matrices have been built, abstracted over the external sklearn operations
(`cross_val_scores` as `cvScores`, `LogisticRegression.fit` as `fit`): in
cross-validate mode it prints the score summary and nothing else; otherwise
it fits, predicts probabilities on the test features, writes
`SUBMISSIONS_DIR/stacked.csv` and prints the coefficients. -/
def trainEffects {σ : Type}
    (cvScores : List (List ℚ) → List ℕ → ℕ → σ)
    (fit : List (List ℚ) → List ℕ → FittedLR)
    (models : List BaseModel) (nv nt k : ℕ) (yVal : List ℕ)
    (teNames : List String) (submissionsDir : String)
    (crossValidate : Bool) : List (Effect σ) :=
  if crossValidate then
    [Effect.printScores (cvScores (stackedVal nv models) yVal k)]
  else
    [Effect.writeSubmission teNames
      (predictProba ((fit (stackedVal nv models) yVal).scores
        (stackedTe nt models)))
      (submissionsDir ++ "/stacked.csv"),
     Effect.printCoef (fit (stackedVal nv models) yVal).coef]

/-- C8: in cross-validate mode `train` prints the per-combiner score summary
and writes no submission file; in final-fit mode it writes exactly one
submission file and prints the fitted coefficients (and no score summary). -/
theorem C8_mode_effects {σ : Type}
    (cvScores : List (List ℚ) → List ℕ → ℕ → σ)
    (fit : List (List ℚ) → List ℕ → FittedLR)
    (models : List BaseModel) (nv nt k : ℕ) (yVal : List ℕ)
    (teNames : List String) (submissionsDir : String) (cv : Bool) :
    (trainEffects cvScores fit models nv nt k yVal teNames submissionsDir
        cv).countP isWriteSubmission = (if cv then 0 else 1)
    ∧ ((∃ s, Effect.printScores s
          ∈ trainEffects cvScores fit models nv nt k yVal teNames
              submissionsDir cv) ↔ cv = true)
    ∧ ((∃ c, Effect.printCoef c
          ∈ trainEffects cvScores fit models nv nt k yVal teNames
              submissionsDir cv) ↔ cv = false) := by
  cases cv <;>
    simp [trainEffects, isWriteSubmission, List.countP_cons, List.countP_nil]

/-- The Python-level arity errors relevant to `src/bounding_box.py`. -/
inductive PyError where
  | typeError

/-- A call to `_cnn` (`src/bounding_box.py` line 164): the function has
exactly one required parameter `model_file`, so Python raises `TypeError`
at call time unless exactly one positional argument is supplied; `body`
stands for the (external, keras-backed) function body run on `model_file`. -/
def callCnn {α : Type} (body : String → α) : List String → Except PyError α
  | [f] => Except.ok (body f)
  | _ => Except.error PyError.typeError

/-- The `predict` command (`src/bounding_box.py` lines 230-241): its first
statement is `model = _cnn()` — a call with an empty argument list — and
everything after it (loading weights, reading images, predicting, saving)
is the continuation `rest`. -/
def predictRun {α β : Type} (body : String → α)
    (rest : α → Except PyError β) : Except PyError β :=
  (callCnn body []).bind rest

/-- C9: every run of `predict` fails with `TypeError` at the `_cnn()` call,
whatever the model constructor body and whatever the rest of the function
would do — so no prediction is ever produced. -/
theorem C9_predict_always_fails {α β : Type} (body : String → α)
    (rest : α → Except PyError β) :
    predictRun body rest = Except.error PyError.typeError := rfl

/-- `_get_dict_tagged_images` (`src/bounding_box.py` lines 65-79): walk the
all-images dictionary in insertion order and keep each entry whose image id
is a key of the ROI dictionary.  `allImages` and `taggedRoi` are the
association lists produced by `_get_dict_all_images` and `_get_dict_roi`
(dictionaries, so their key sequences contain no duplicates); building the
fresh `OrderedDict` from an all-images walk with unique keys is appending. -/
def getDictTaggedImages (allImages taggedRoi : List (String × String)) :
    List (String × String) :=
  allImages.foldl
    (fun d p => if taggedRoi.any fun q => q.1 == p.1 then d ++ [p] else d) []

/-- `_get_dict_untagged_images` (`src/bounding_box.py` lines 82-86): copy the
all-images dictionary and `del` every tagged image id from it. -/
def getDictUntaggedImages (allImages taggedRoi : List (String × String)) :
    List (String × String) :=
  (getDictTaggedImages allImages taggedRoi).foldl
    (fun d p => d.eraseP fun q => q.1 == p.1) allImages

lemma foldl_append_filter (P : String × String → Bool)
    (l acc : List (String × String)) :
    l.foldl (fun d p => if P p then d ++ [p] else d) acc = acc ++ l.filter P := by
  induction l generalizing acc with
  | nil => simp
  | cons p t ih =>
    rw [List.foldl_cons]
    cases hP : P p with
    | true =>
      rw [show (if true = true then acc ++ [p] else acc) = acc ++ [p] from rfl,
        ih, List.filter_cons_of_pos hP, List.append_assoc,
        List.singleton_append]
    | false =>
      rw [show (if false = true then acc ++ [p] else acc) = acc from rfl,
        ih, List.filter_cons_of_neg (by simp [hP])]

lemma tagged_eq_filter (allImages taggedRoi : List (String × String)) :
    getDictTaggedImages allImages taggedRoi
      = allImages.filter fun p => taggedRoi.any fun q => q.1 == p.1 := by
  rw [getDictTaggedImages, foldl_append_filter, List.nil_append]

lemma eraseP_eq_filter_of_nodup (d : List (String × String)) (k : String)
    (h : (d.map Prod.fst).Nodup) :
    d.eraseP (fun q => q.1 == k) = d.filter fun q => !(q.1 == k) := by
  induction d with
  | nil => simp
  | cons p t ih =>
    rw [List.map_cons, List.nodup_cons] at h
    cases hp : (p.1 == k) with
    | true =>
      have h1 : List.eraseP (fun q => q.1 == k) (p :: t) = t := by
        simp [List.eraseP_cons, hp]
      have h2 : List.filter (fun q => !(q.1 == k)) (p :: t)
          = List.filter (fun q => !(q.1 == k)) t := by
        simp [List.filter_cons, hp]
      rw [h1, h2]
      refine (List.filter_eq_self.mpr fun a ha => ?_).symm
      have hak : a.1 ≠ k := by
        intro hak
        exact h.1 (List.mem_map.mpr ⟨a, ha, hak.trans (beq_iff_eq.mp hp).symm⟩)
      simp [hak]
    | false =>
      have h1 : List.eraseP (fun q => q.1 == k) (p :: t)
          = p :: List.eraseP (fun q => q.1 == k) t := by
        simp [List.eraseP_cons, hp]
      have h2 : List.filter (fun q => !(q.1 == k)) (p :: t)
          = p :: List.filter (fun q => !(q.1 == k)) t := by
        simp [List.filter_cons, hp]
      rw [h1, h2, ih h.2]

lemma foldl_eraseP_eq_filter (ts : List (String × String)) :
    ∀ d : List (String × String), (d.map Prod.fst).Nodup →
    ts.foldl (fun d p => d.eraseP fun q => q.1 == p.1) d
      = d.filter fun q => ts.all fun u => !(q.1 == u.1) := by
  induction ts with
  | nil => intro d _; simp
  | cons t ts ih =>
    intro d h
    have hnd : ((d.filter fun q => !(q.1 == t.1)).map Prod.fst).Nodup :=
      h.sublist ((d.filter_sublist).map Prod.fst)
    rw [List.foldl_cons, eraseP_eq_filter_of_nodup d t.1 h, ih _ hnd,
      List.filter_filter]
    refine List.filter_congr fun q _ => ?_
    simp [List.all_cons, Bool.and_comm]

lemma untagged_eq_filter (allImages taggedRoi : List (String × String))
    (h : (allImages.map Prod.fst).Nodup) :
    getDictUntaggedImages allImages taggedRoi
      = allImages.filter fun p => !(taggedRoi.any fun q => q.1 == p.1) := by
  rw [getDictUntaggedImages, tagged_eq_filter,
    foldl_eraseP_eq_filter _ allImages h]
  refine List.filter_congr fun p hp => ?_
  cases hP : (taggedRoi.any fun q => q.1 == p.1) with
  | true =>
    have hmem : p ∈ allImages.filter fun x => taggedRoi.any fun q => q.1 == x.1 :=
      List.mem_filter.mpr ⟨hp, hP⟩
    simp only [Bool.not_true]
    refine Bool.eq_false_iff.mpr fun hall => ?_
    rw [List.all_eq_true] at hall
    have := hall p hmem
    simp at this
  | false =>
    simp only [Bool.not_false]
    rw [List.all_eq_true]
    intro u hu
    obtain ⟨_, hPu⟩ := List.mem_filter.mp hu
    by_cases hk : p.1 = u.1
    · rw [← hk] at hPu
      rw [hPu] at hP
      cases hP
    · simp [hk]

/-- C10: for any all-images dictionary and ROI dictionary, the tagged-image
mapping is exactly the all-images entries whose id has an ROI file, in
all-images order; the untagged mapping is exactly the remaining entries; the
two key sequences are disjoint, and together they cover precisely the
all-images key set. -/
theorem C10_tagged_untagged_partition
    (allImages taggedRoi : List (String × String))
    (h : (allImages.map Prod.fst).Nodup) (k : String) :
    getDictTaggedImages allImages taggedRoi
        = allImages.filter (fun p => taggedRoi.any fun q => q.1 == p.1)
    ∧ getDictUntaggedImages allImages taggedRoi
        = allImages.filter (fun p => !(taggedRoi.any fun q => q.1 == p.1))
    ∧ List.Disjoint ((getDictTaggedImages allImages taggedRoi).map Prod.fst)
        ((getDictUntaggedImages allImages taggedRoi).map Prod.fst)
    ∧ (k ∈ allImages.map Prod.fst
        ↔ k ∈ (getDictTaggedImages allImages taggedRoi).map Prod.fst
          ∨ k ∈ (getDictUntaggedImages allImages taggedRoi).map Prod.fst) := by
  refine ⟨tagged_eq_filter _ _, untagged_eq_filter _ _ h, ?_, ?_⟩
  · intro x hx1 hx2
    rw [tagged_eq_filter, List.mem_map] at hx1
    rw [untagged_eq_filter _ _ h, List.mem_map] at hx2
    obtain ⟨a, ha, hak⟩ := hx1
    obtain ⟨b, hb, hbk⟩ := hx2
    obtain ⟨_, hPa⟩ := List.mem_filter.mp ha
    obtain ⟨_, hPb⟩ := List.mem_filter.mp hb
    rw [show a.1 = b.1 from hak.trans hbk.symm] at hPa
    rw [hPa] at hPb
    simp at hPb
  · constructor
    · intro hk
      obtain ⟨p, hp, hpk⟩ := List.mem_map.mp hk
      cases hP : (taggedRoi.any fun q => q.1 == p.1) with
      | true =>
        exact Or.inl (by
          rw [tagged_eq_filter, List.mem_map]
          exact ⟨p, List.mem_filter.mpr ⟨hp, hP⟩, hpk⟩)
      | false =>
        exact Or.inr (by
          rw [untagged_eq_filter _ _ h, List.mem_map]
          exact ⟨p, List.mem_filter.mpr ⟨hp, by simp [hP]⟩, hpk⟩)
    · intro hk
      cases hk with
      | inl hk =>
        rw [tagged_eq_filter, List.mem_map] at hk
        obtain ⟨p, hp, hpk⟩ := hk
        exact List.mem_map.mpr ⟨p, (List.mem_filter.mp hp).1, hpk⟩
      | inr hk =>
        rw [untagged_eq_filter _ _ h, List.mem_map] at hk
        obtain ⟨p, hp, hpk⟩ := hk
        exact List.mem_map.mpr ⟨p, (List.mem_filter.mp hp).1, hpk⟩

/-- Witness for C10 at a concrete training directory with one tagged and one
untagged image. -/
theorem C10_tagged_untagged_partition_witness :
    getDictTaggedImages [("1", "a.jpg"), ("2", "b.jpg")] [("1", "a.roi")]
        = [("1", "a.jpg"), ("2", "b.jpg")].filter
            (fun p => [("1", "a.roi")].any fun q => q.1 == p.1)
    ∧ getDictUntaggedImages [("1", "a.jpg"), ("2", "b.jpg")] [("1", "a.roi")]
        = [("1", "a.jpg"), ("2", "b.jpg")].filter
            (fun p => !([("1", "a.roi")].any fun q => q.1 == p.1))
    ∧ List.Disjoint
        ((getDictTaggedImages [("1", "a.jpg"), ("2", "b.jpg")]
            [("1", "a.roi")]).map Prod.fst)
        ((getDictUntaggedImages [("1", "a.jpg"), ("2", "b.jpg")]
            [("1", "a.roi")]).map Prod.fst)
    ∧ ("1" ∈ [("1", "a.jpg"), ("2", "b.jpg")].map Prod.fst
        ↔ "1" ∈ (getDictTaggedImages [("1", "a.jpg"), ("2", "b.jpg")]
              [("1", "a.roi")]).map Prod.fst
          ∨ "1" ∈ (getDictUntaggedImages [("1", "a.jpg"), ("2", "b.jpg")]
              [("1", "a.roi")]).map Prod.fst) :=
  C10_tagged_untagged_partition _ _ (by decide) "1"
